import Mathlib

/-!
Verification of the flashauth core against its specification.

The TypeScript sources are shallowly embedded: strings appearing in the
permission engine, claims model, cache and revocation store are Lean
`String`s; the wire token and all byte buffers in the codec layer are
`List Nat` (character codes / byte values, each below 256).  Stateful
objects (cache, revocation store) become records threaded explicitly.
JavaScript truthiness guards such as `if (claims.jti)` are modelled by
explicit `truthy` helpers (`0`, the empty string and `undefined` are
falsy).  External collaborators (the XChaCha20-Poly1305 cipher from
noble-ciphers, the built-in JSON codec) are universally quantified
function parameters constrained only by their documented contracts.
-/

set_option maxHeartbeats 1000000

namespace FlashAuth

/-! ### Permission utilities, from src/utils/permission-utils.ts -/

/-- JS `Set.add` on an insertion-ordered set: append unless present. -/
def insertUnique (acc : List String) (x : String) : List String :=
  if x ∈ acc then acc else acc ++ [x]

/-- Property lookup `rolePermissions[role]` on an object literal,
modelled as first-match association-list lookup. -/
def lookupRole (table : List (String × List String)) (role : String) :
    Option (List String) :=
  match table with
  | [] => none
  | (r, ps) :: rest => if r = role then some ps else lookupRole rest role

/-- `expandRolesToPermissions`: one insertion-ordered `Set` accumulated
across all roles, skipping role names absent from the table. -/
def expandRolesToPermissions (roles : List String)
    (table : List (String × List String)) : List String :=
  roles.foldl (fun acc role =>
    match lookupRole table role with
    | some ps => ps.foldl insertUnique acc
    | none => acc) []

/-- `mergePermissions`: `new Set([...rolePerms, ...explicitPermissions])`
turned back into an array, i.e. insertion-ordered dedup of the
role-expansion followed by the explicit permissions. -/
def mergePermissions (roles explicitPermissions : List String)
    (table : List (String × List String)) : List String :=
  (expandRolesToPermissions roles table ++ explicitPermissions).foldl
    insertUnique []

/-- Specification-side dedup keeping the first occurrence, written as a
direct recursion over the list with a `seen` accumulator. -/
def dedupSeen (seen : List String) : List String → List String
  | [] => []
  | x :: xs => if x ∈ seen then dedupSeen seen xs else x :: dedupSeen (x :: seen) xs

/-- Deduplicate a list keeping the first occurrence of every element. -/
def dedupKeepFirst (l : List String) : List String :=
  dedupSeen [] l

/-- `matchPermission(permission, pattern)` over character-code lists:
exact match, the global wildcard, or a trailing `:*` resource wildcard.
46 is `.`, 58 is `:`, 42 is `*`. -/
def matchPermission (permission pattern : List Char) : Bool :=
  if pattern = permission then true
  else if pattern = ['*'] then true
  else if [':', '*'].isSuffixOf pattern then
    (pattern.dropLast.dropLast ++ [':']).isPrefixOf permission
  else false

/-! ### Claims model, from src/core/claims.ts -/

/-- A `Claims` instance: the fixed standard fields.  Custom claims are
irrelevant to every property proved here and are omitted; `validateClaims`
and the authority never read them. -/
structure Claims where
  iss : Option String := none
  sub : String := ""
  aud : Option (List String) := none
  exp : Int := 0
  iat : Int := 0
  nbf : Option Int := none
  jti : Option String := none
  roles : Option (List String) := none
  perms : Option (List String) := none
deriving DecidableEq, Repr

/-- JS truthiness of an optional string (`undefined` and `""` are falsy). -/
def truthyStr : Option String → Bool
  | some s => s ≠ ""
  | none => false

/-- JS truthiness of an optional number (`undefined` and `0` are falsy). -/
def truthyInt : Option Int → Bool
  | some n => n ≠ 0
  | none => false

/-- `Claims.isExpired(clockSkew)`: `exp < now - clockSkew`; the ambient
clock `Date.now()/1000` is threaded explicitly as `now`. -/
def isExpired (c : Claims) (clockSkew now : Int) : Bool :=
  c.exp < now - clockSkew

/-- `Claims.isNotYetValid(clockSkew)`: falsy `nbf` short-circuits to
false, otherwise `nbf > now + clockSkew`. -/
def isNotYetValid (c : Claims) (clockSkew now : Int) : Bool :=
  if truthyInt c.nbf then c.nbf.getD 0 > now + clockSkew else false

/-- Options accepted by `validateClaims`. -/
structure ValidationOptions where
  clockSkew : Int := 0
  validateExpiry : Bool := true
  minIssuedAt : Option Int := none
  requiredAudience : Option String := none
  requiredIssuer : Option String := none
deriving DecidableEq, Repr

/-- Audience membership test `claims.aud && claims.aud.includes(a)`. -/
def audIncludes (c : Claims) (a : String) : Bool :=
  match c.aud with
  | some l => a ∈ l
  | none => false

/-- `validateClaims(claims, options)`: returns the message of the first
failing check (the code throws `ValidationError` with that message), or
`none` when all checks pass.  The checks appear in source order:
expiry, not-before, minimum issued-at, audience, issuer. -/
def validateClaims (c : Claims) (o : ValidationOptions) (now : Int) :
    Option String :=
  if o.validateExpiry && isExpired c o.clockSkew now then
    some "Token has expired"
  else if isNotYetValid c o.clockSkew now then
    some "Token is not yet valid"
  else if truthyInt o.minIssuedAt && decide (c.iat < o.minIssuedAt.getD 0) then
    some "Token issued too long ago"
  else if truthyStr o.requiredAudience &&
      !audIncludes c (o.requiredAudience.getD "") then
    some ("Token audience does not include " ++ o.requiredAudience.getD "")
  else if truthyStr o.requiredIssuer &&
      decide (c.iss ≠ some (o.requiredIssuer.getD "")) then
    some ("Token issuer does not match " ++ o.requiredIssuer.getD "")
  else none

/-- The five checks of `validateClaims` as (fails?, message) pairs, in
the order the code evaluates them. -/
def checkList (c : Claims) (o : ValidationOptions) (now : Int) :
    List (Bool × String) :=
  [ (o.validateExpiry && isExpired c o.clockSkew now, "Token has expired"),
    (isNotYetValid c o.clockSkew now, "Token is not yet valid"),
    (truthyInt o.minIssuedAt && decide (c.iat < o.minIssuedAt.getD 0),
      "Token issued too long ago"),
    (truthyStr o.requiredAudience && !audIncludes c (o.requiredAudience.getD ""),
      "Token audience does not include " ++ o.requiredAudience.getD ""),
    (truthyStr o.requiredIssuer && decide (c.iss ≠ some (o.requiredIssuer.getD "")),
      "Token issuer does not match " ++ o.requiredIssuer.getD "") ]

/-- Fail-fast evaluation of a check list: the message of the first
check whose condition holds; later checks are not evaluated. -/
def firstFailing : List (Bool × String) → Option String
  | [] => none
  | (b, m) :: rest => if b then some m else firstFailing rest

/-- The check order asserted by the specification sentence under test:
not-yet-valid first, then expiry, then the remaining three checks. -/
def validateClaimsSpecOrder (c : Claims) (o : ValidationOptions) (now : Int) :
    Option String :=
  firstFailing
    [ (isNotYetValid c o.clockSkew now, "Token is not yet valid"),
      (o.validateExpiry && isExpired c o.clockSkew now, "Token has expired"),
      (truthyInt o.minIssuedAt && decide (c.iat < o.minIssuedAt.getD 0),
        "Token issued too long ago"),
      (truthyStr o.requiredAudience && !audIncludes c (o.requiredAudience.getD ""),
        "Token audience does not include " ++ o.requiredAudience.getD ""),
      (truthyStr o.requiredIssuer && decide (c.iss ≠ some (o.requiredIssuer.getD "")),
        "Token issuer does not match " ++ o.requiredIssuer.getD "") ]

/-! ### Revocation store and token cache, from src/tokens/token-store.ts -/

/-- `Map.set` semantics: replace in place when the key exists, append
otherwise. -/
def assocSet (m : List (String × Int)) (k : String) (v : Int) :
    List (String × Int) :=
  match m with
  | [] => [(k, v)]
  | (k', v') :: rest =>
    if k' = k then (k, v) :: rest else (k', v') :: assocSet rest k v

/-- `InMemoryRevocationStore` state: `revokedTokens : Map<string, number>`
(tokenId to expiresAt) and `revokedUsers : Set<string>`. -/
structure RevocationState where
  revokedTokens : List (String × Int) := []
  revokedUsers : List String := []
deriving DecidableEq, Repr

/-- `revoke(jti, expiresAt)`: `revokedTokens.set(jti, expiresAt)`. -/
def storeRevoke (st : RevocationState) (jti : String) (expiresAt : Int) :
    RevocationState :=
  { st with revokedTokens := assocSet st.revokedTokens jti expiresAt }

/-- `isRevoked(jti)`: `revokedTokens.has(jti)` - presence only, the
stored `expiresAt` value is never consulted. -/
def storeIsRevoked (st : RevocationState) (jti : String) : Bool :=
  (st.revokedTokens.lookup jti).isSome

/-- `revokeUser(userId)`: `revokedUsers.add(userId)`. -/
def storeRevokeUser (st : RevocationState) (userId : String) : RevocationState :=
  { st with revokedUsers :=
      if userId ∈ st.revokedUsers then st.revokedUsers
      else st.revokedUsers ++ [userId] }

/-- `isUserRevoked(userId)`: `revokedUsers.has(userId)`. -/
def storeIsUserRevoked (st : RevocationState) (userId : String) : Bool :=
  userId ∈ st.revokedUsers

/-- `cleanup()`: delete every token entry whose `expiresAt < now`. -/
def storeCleanup (st : RevocationState) (now : Int) : RevocationState :=
  { st with revokedTokens := st.revokedTokens.filter (fun e => !(e.2 < now)) }

/-- One `TokenCache` entry: the decoded claims and the absolute expiry
`Date.now() + ttl` recorded at insertion. -/
structure CacheEntry where
  claims : Claims
  expiresAt : Int
deriving DecidableEq, Repr

/-- `TokenCache` state: insertion-ordered map from token string to entry,
plus the configured bounds. -/
structure TokenCache where
  entries : List (String × CacheEntry) := []
  maxSize : Nat := 10000
  ttl : Int := 300000
deriving DecidableEq, Repr

/-- `TokenCache.get(token)`: miss on absence; delete-and-miss on an
entry past its expiry; hit otherwise.  Returns the possibly mutated
cache alongside the result. -/
def cacheGet (tc : TokenCache) (token : String) (nowMs : Int) :
    Option Claims × TokenCache :=
  match tc.entries.lookup token with
  | none => (none, tc)
  | some e =>
    if nowMs > e.expiresAt then
      (none, { tc with entries := tc.entries.filter (fun p => p.1 ≠ token) })
    else (some e.claims, tc)

/-- `Map.set` for cache entries (replace in place or append). -/
def cacheAssocSet (m : List (String × CacheEntry)) (k : String)
    (v : CacheEntry) : List (String × CacheEntry) :=
  match m with
  | [] => [(k, v)]
  | (k', v') :: rest =>
    if k' = k then (k, v) :: rest else (k', v') :: cacheAssocSet rest k v

/-- `TokenCache.set(token, claims)`: evict the first-inserted key when at
capacity, then insert with expiry `now + ttl`. -/
def cacheSet (tc : TokenCache) (token : String) (claims : Claims)
    (nowMs : Int) : TokenCache :=
  let entries :=
    if tc.maxSize ≤ tc.entries.length then tc.entries.tail else tc.entries
  { tc with entries :=
      cacheAssocSet entries token ⟨claims, nowMs + tc.ttl⟩ }

/-- `TokenCache.invalidate(token)`. -/
def cacheInvalidate (tc : TokenCache) (token : String) : TokenCache :=
  { tc with entries := tc.entries.filter (fun p => p.1 ≠ token) }

/-! ### The authority facade, from src/flashauth.ts -/

/-- Gates of the per-call validation state machine, recorded as an event
trace by the embedding of `FlashAuth.validateToken`. -/
inductive GateEvent
  | received
  | cacheHit
  | cacheMiss
  | decoded
  | temporalChecked
  | revocationChecked
  | accepted
  | rejected
deriving DecidableEq, Repr

/-- Typed failures surfaced by `validateToken`. -/
inductive AuthFailure
  | tokenInvalid
  | validationFailed (msg : String)
  | tokenRevoked
deriving DecidableEq, Repr

/-- Mutable state owned by a `FlashAuth` instance: the optional token
cache and the revocation store. -/
structure AuthState where
  cache : Option TokenCache := none
  store : RevocationState := {}
deriving DecidableEq, Repr

instance exceptDecEq {ε α : Type} [DecidableEq ε] [DecidableEq α] :
    DecidableEq (Except ε α)
  | .ok a, .ok b =>
    if h : a = b then .isTrue (by rw [h])
    else .isFalse (by intro hh; cases hh; exact h rfl)
  | .ok _, .error _ => .isFalse (by intro h; cases h)
  | .error _, .ok _ => .isFalse (by intro h; cases h)
  | .error e, .error f =>
    if h : e = f then .isTrue (by rw [h])
    else .isFalse (by intro hh; cases hh; exact h rfl)

/-- Outcome of one `validateToken` call: the result, the gate trace of
this call, and the successor state. -/
structure ValidationOutcome where
  result : Except AuthFailure Claims
  events : List GateEvent
  state : AuthState
deriving DecidableEq, Repr

/-- `TokenParser.parse`: decode the wire token (decryption pipeline
abstracted as the `decode` parameter), then run `validateClaims`. -/
def parserParse (decode : String → Option Claims) (token : String)
    (o : ValidationOptions) (nowSec : Int) : Except AuthFailure Claims :=
  match decode token with
  | none => .error .tokenInvalid
  | some c =>
    match validateClaims c o nowSec with
    | some msg => .error (.validationFailed msg)
    | none => .ok c

/-- Delete the cache entry for `token`, if a cache is configured. -/
def authInvalidate (st : AuthState) (token : String) : AuthState :=
  { st with cache := st.cache.map (fun tc => cacheInvalidate tc token) }

/-- The tail of `validateToken` shared by the hit and miss paths: the
token-id revocation check, then the subject revocation check; on either
positive check the cache entry is invalidated and `TokenRevokedError`
raised; otherwise the claims are returned. -/
def revocationPhase (st : AuthState) (token : String) (c : Claims)
    (pre : List GateEvent) : ValidationOutcome :=
  if truthyStr c.jti && storeIsRevoked st.store (c.jti.getD "") then
    ⟨.error .tokenRevoked, pre ++ [.rejected], authInvalidate st token⟩
  else if storeIsUserRevoked st.store c.sub then
    ⟨.error .tokenRevoked, pre ++ [.rejected], authInvalidate st token⟩
  else
    ⟨.ok c, pre ++ [.revocationChecked, .accepted], st⟩

/-- `FlashAuth.validateToken`: probe the cache; on a miss parse and
validate, then populate the cache; in every case finish with the
revocation checks.  `nowSec` is the seconds clock used by the claims
checks, `nowMs` the milliseconds clock used by the cache. -/
def validateToken (decode : String → Option Claims) (st : AuthState)
    (token : String) (o : ValidationOptions) (nowSec nowMs : Int) :
    ValidationOutcome :=
  let probe : Option Claims × AuthState :=
    match st.cache with
    | none => (none, st)
    | some tc =>
      let (r, tc') := cacheGet tc token nowMs
      (r, { st with cache := some tc' })
  match probe with
  | (some c, st1) =>
    revocationPhase st1 token c [.received, .cacheHit]
  | (none, st1) =>
    match decode token with
    | none =>
      ⟨.error .tokenInvalid, [.received, .cacheMiss, .rejected], st1⟩
    | some c =>
      match validateClaims c o nowSec with
      | some msg =>
        ⟨.error (.validationFailed msg),
          [.received, .cacheMiss, .decoded, .rejected], st1⟩
      | none =>
        let st2 : AuthState :=
          match st1.cache with
          | some tc => { st1 with cache := some (cacheSet tc token c nowMs) }
          | none => st1
        revocationPhase st2 token c
          [.received, .cacheMiss, .decoded, .temporalChecked]

/-- `FlashAuth.revokeToken`. -/
def authRevokeToken (st : AuthState) (jti : String) (expiresAt : Int) :
    AuthState :=
  { st with store := storeRevoke st.store jti expiresAt }

/-! ### Primitive layer, from src/core/cryptography.ts

Byte buffers are `List Nat` with every element below 256. -/

/-- `le64(n)`: `setBigUint64(0, BigInt(n), littleEndian)` - the value is
truncated to 64 bits and laid out as 8 little-endian bytes. -/
def le64 (n : Nat) : List Nat :=
  let m := n % 18446744073709551616
  [m % 256, m / 256 % 256, m / 65536 % 256, m / 16777216 % 256,
   m / 4294967296 % 256, m / 1099511627776 % 256,
   m / 281474976710656 % 256, m / 72057594037927936 % 256]

/-- `preAuthEncode(pieces)`: build the array
`[le64 count, le64 len1, piece1, le64 len2, piece2, ...]` and
concatenate it, exactly as the source's push/offset loop does. -/
def preAuthEncode (pieces : List (List Nat)) : List Nat :=
  let encoded :=
    le64 pieces.length ::
      pieces.foldl (fun acc p => acc ++ [le64 p.length, p]) []
  encoded.foldl (fun res arr => res ++ arr) []

/-- The byte encoding of the header string `"v4.local."` (ASCII, so the
UTF-8 bytes coincide with the character codes). -/
def hdrCodes : List Nat :=
  [118, 52, 46, 108, 111, 99, 97, 108, 46]

/-- Type of the authenticated-encryption seal operation of the external
cipher library: key, nonce, authenticated data, message to sealed bytes
(ciphertext plus 16-byte tag). -/
abbrev CipherEnc := List Nat → List Nat → List Nat → List Nat → List Nat

/-- Type of the authenticated-decryption open operation: key, nonce,
authenticated data, sealed bytes to message; `none` is the single
authentication-failure outcome. -/
abbrev CipherDec := List Nat → List Nat → List Nat → List Nat → Option (List Nat)

/-- `encryptLocal(message, key, footer)` with the fresh random nonce
threaded explicitly: key-size gate, PAE over header, nonce, footer and
the empty implicit assertion, then `nonce ++ sealed`. -/
def encryptLocal (enc : CipherEnc) (nonce message key footer : List Nat) :
    Except Unit (List Nat) :=
  if key.length ≠ 32 then .error ()
  else
    let pae := preAuthEncode [hdrCodes, nonce, footer, []]
    .ok (nonce ++ enc key nonce pae message)

/-- `decryptLocal(encrypted, key, footer)`: key-size gate, minimum
length gate (24-byte nonce plus 16-byte tag), split, recompute the PAE
and open; every cipher failure is the one `CryptographyError`. -/
def decryptLocal (dec : CipherDec) (encrypted key footer : List Nat) :
    Except Unit (List Nat) :=
  if key.length ≠ 32 then .error ()
  else if encrypted.length < 40 then .error ()
  else
    let nonce := encrypted.take 24
    let sealed := encrypted.drop 24
    let pae := preAuthEncode [hdrCodes, nonce, footer, []]
    match dec key nonce pae sealed with
    | some m => .ok m
    | none => .error ()

/-! ### Base64url codec, from src/core/paseto.ts

`base64urlEncode` is `Buffer.toString('base64')` followed by the
`+ / =` substitutions; modelled directly as RFC 4648 URL-safe base64
without padding over character codes. -/

/-- The URL-safe alphabet as a function from a 6-bit value to a
character code: `A-Z`, `a-z`, `0-9`, `-`, `_`. -/
def b64Code (n : Nat) : Nat :=
  if n < 26 then 65 + n
  else if n < 52 then 97 + (n - 26)
  else if n < 62 then 48 + (n - 52)
  else if n = 62 then 45
  else 95

/-- Inverse of the alphabet: `none` on codes outside it. -/
def b64Value (v : Nat) : Option Nat :=
  if 65 ≤ v ∧ v ≤ 90 then some (v - 65)
  else if 97 ≤ v ∧ v ≤ 122 then some (26 + (v - 97))
  else if 48 ≤ v ∧ v ≤ 57 then some (52 + (v - 48))
  else if v = 45 then some 62
  else if v = 95 then some 63
  else none

/-- `base64urlEncode`: bytes to unpadded URL-safe base64 character
codes, processing three input bytes into four output characters. -/
def base64urlEncode : List Nat → List Nat
  | [] => []
  | [b1] => [b64Code (b1 / 4), b64Code (b1 % 4 * 16)]
  | [b1, b2] =>
    [b64Code (b1 / 4), b64Code (b1 % 4 * 16 + b2 / 16), b64Code (b2 % 16 * 4)]
  | b1 :: b2 :: b3 :: rest =>
    b64Code (b1 / 4) :: b64Code (b1 % 4 * 16 + b2 / 16) ::
      b64Code (b2 % 16 * 4 + b3 / 64) :: b64Code (b3 % 64) ::
        base64urlEncode rest

/-- `base64urlDecode`: unpadded URL-safe base64 character codes back to
bytes; `none` on a dangling single character or a code outside the
alphabet. -/
def base64urlDecode : List Nat → Option (List Nat)
  | [] => some []
  | [_] => none
  | [c1, c2] =>
    match b64Value c1, b64Value c2 with
    | some i1, some i2 => some [i1 * 4 + i2 / 16]
    | _, _ => none
  | [c1, c2, c3] =>
    match b64Value c1, b64Value c2, b64Value c3 with
    | some i1, some i2, some i3 =>
      some [i1 * 4 + i2 / 16, i2 % 16 * 16 + i3 / 4]
    | _, _, _ => none
  | c1 :: c2 :: c3 :: c4 :: rest =>
    match b64Value c1, b64Value c2, b64Value c3, b64Value c4,
        base64urlDecode rest with
    | some i1, some i2, some i3, some i4, some bs =>
      some ((i1 * 4 + i2 / 16) :: (i2 % 16 * 16 + i3 / 4) ::
        (i3 % 4 * 64 + i4) :: bs)
    | _, _, _, _, _ => none

/-! ### Token codec, from src/core/paseto.ts -/

/-- `String.prototype.split('.')` over character codes (46 is the dot):
always returns at least one, possibly empty, segment. -/
def splitOnDot : List Nat → List (List Nat)
  | [] => [[]]
  | c :: rest =>
    if c = 46 then [] :: splitOnDot rest
    else
      match splitOnDot rest with
      | [] => [[c]]
      | p :: ps => (c :: p) :: ps

/-- The distinct wire-format failures `parseToken` folds into
`TokenInvalidError`: missing `v4.local.` prefix, wrong part count,
empty payload, and any failure inside the try block (base64 decode,
authenticated decryption, claims deserialization). -/
inductive ParseErr
  | noPrefix
  | badPartCount
  | emptyPayload
  | parseFailed
deriving DecidableEq, Repr

/-- `createToken(claims, key, footer?)` with the nonce and the JSON
serializer (`JSON.stringify` plus `TextEncoder`, an external
collaborator) threaded explicitly: serialize, seal, base64url, then
assemble `v4.local.<payload>[.<footer>]`. -/
def createToken {C : Type} (enc : CipherEnc) (jsonEnc : C → List Nat)
    (nonce : List Nat) (claims : C) (key : List Nat)
    (footer : Option (List Nat)) : Except Unit (List Nat) :=
  let message := jsonEnc claims
  let footerBytes := match footer with | some f => f | none => []
  match encryptLocal enc nonce message key footerBytes with
  | .error e => .error e
  | .ok encrypted =>
    let payload := base64urlEncode encrypted
    let tok := hdrCodes ++ payload
    .ok (match footer with
      | some f => if f ≠ [] then tok ++ [46] ++ base64urlEncode f else tok
      | none => tok)

/-- `parseToken(token, key)` with the JSON deserializer threaded
explicitly.  Where the source checks JS truthiness of `parts[1]`, an
absent and an empty footer segment coincide (`undefined` and `""` are
both falsy); the returned footer is kept as its decoded bytes. -/
def parseToken {C : Type} (dec : CipherDec) (jsonDec : List Nat → Option C)
    (token key : List Nat) : Except ParseErr (C × Option (List Nat)) :=
  if ¬ hdrCodes.isPrefixOf token then .error .noPrefix
  else
    let withoutHeader := token.drop 9
    let parts := splitOnDot withoutHeader
    if parts.length < 1 ∨ 2 < parts.length then .error .badPartCount
    else
      let payloadStr := parts.headD []
      let footerStr := parts.getD 1 []
      if payloadStr = [] then .error .emptyPayload
      else
        match base64urlDecode payloadStr with
        | none => .error .parseFailed
        | some encrypted =>
          match (if footerStr = [] then some [] else base64urlDecode footerStr) with
          | none => .error .parseFailed
          | some footerBytes =>
            match decryptLocal dec encrypted key footerBytes with
            | .error _ => .error .parseFailed
            | .ok decrypted =>
              match jsonDec decrypted with
              | none => .error .parseFailed
              | some claims =>
                .ok (claims, if footerStr = [] then none else some footerBytes)

/-! ### Token builder, from src/tokens/token-builder.ts -/

/-- The accumulated claims of a `TokenBuilder` just before `build()`. -/
structure BuilderClaims where
  sub : Option String := none
  iss : Option String := none
  aud : Option (List String) := none
  exp : Option Int := none
  iat : Int := 0
  nbf : Option Int := none
  jti : Option String := none
  roles : Option (List String) := none
  perms : Option (List String) := none
deriving DecidableEq, Repr

/-- The permission-resolution step of `build()`: `mergePermissions` runs
only when `roles` is present and non-empty; otherwise `perms` is passed
through exactly as supplied. -/
def buildResolvedPerms (b : BuilderClaims)
    (table : List (String × List String)) : Option (List String) :=
  match b.roles with
  | some rs =>
    if 0 < rs.length then some (mergePermissions rs (b.perms.getD []) table)
    else b.perms
  | none => b.perms

/-- `TokenBuilder.build()` up to the claims record handed to
`createToken` (which serializes it verbatim): required-field gates with
JS truthiness, then permission resolution. -/
def build (b : BuilderClaims) (table : List (String × List String)) :
    Except String Claims :=
  if !truthyStr b.sub then .error "Subject (sub) is required"
  else if !truthyInt b.exp then .error "Expiration (exp) is required"
  else
    .ok { sub := b.sub.getD "", iss := b.iss, aud := b.aud,
          exp := b.exp.getD 0, iat := b.iat, nbf := b.nbf, jti := b.jti,
          roles := b.roles, perms := buildResolvedPerms b table }

/-! ### Specification-side byte encodings and concrete cipher instances -/

/-- Specification-side 8-byte little-endian unsigned encoding: byte `i`
is `n / 256 ^ i % 256`. -/
def le64Spec (n : Nat) : List Nat :=
  (List.range 8).map (fun i => n / 256 ^ i % 256)

/-- Value of a little-endian byte list, used to state that `le64` is
bit-exact (recoverable) for 64-bit values. -/
def fromLE : List Nat → Nat
  | [] => 0
  | b :: bs => b + 256 * fromLE bs

/-- A concrete seal operation satisfying the cipher contract: append a
16-byte tag of zeros.  Used only to instantiate witnesses and
counterexamples at closed inputs. -/
def encToy : CipherEnc :=
  fun _ _ _ msg => msg ++ List.replicate 16 0

/-- The matching concrete open operation: strip and check the tag. -/
def decToy : CipherDec :=
  fun _ _ _ sealed =>
    if 16 ≤ sealed.length ∧
        sealed.drop (sealed.length - 16) = List.replicate 16 0 then
      some (sealed.take (sealed.length - 16))
    else none

/-- A concrete 32-byte key for witnesses. -/
def keyToy : List Nat := List.replicate 32 7

/-- A concrete 24-byte nonce for witnesses. -/
def nonceToy : List Nat := List.replicate 24 1

/-! ### A concrete validation scenario used by several witnesses -/

/-- Claims carried by the scenario token: subject `alice`, token id
`t1`, far-future expiry. -/
def demoClaims : Claims :=
  { sub := "alice", exp := 1000, iat := 0, jti := some "t1" }

/-- Decode function of the scenario: exactly one token string decodes,
to `demoClaims`. -/
def demoDecode : String → Option Claims :=
  fun t => if t = "tok1" then some demoClaims else none

/-- Initial authority state of the scenario: empty cache enabled, empty
revocation store. -/
def demoState0 : AuthState :=
  { cache := some {}, store := {} }

/-! ### Helper lemmas: insertion-ordered sets -/

theorem mem_dedupSeen (l : List String) :
    ∀ (seen : List String) (y : String),
      y ∈ dedupSeen seen l ↔ y ∈ l ∧ y ∉ seen := by
  induction l with
  | nil => intro seen y; simp [dedupSeen]
  | cons x xs ih =>
    intro seen y
    by_cases hx : x ∈ seen
    · simp only [dedupSeen, if_pos hx, ih, List.mem_cons]
      constructor
      · rintro ⟨hy, hns⟩; exact ⟨Or.inr hy, hns⟩
      · rintro ⟨hy | hy, hns⟩
        · exact absurd (hy ▸ hx) hns
        · exact ⟨hy, hns⟩
    · simp only [dedupSeen, if_neg hx, List.mem_cons, ih]
      by_cases hyx : y = x
      · subst hyx; simp [hx]
      · simp [hyx]

theorem dedupSeen_congr (l : List String) :
    ∀ (s1 s2 : List String), (∀ y, y ∈ s1 ↔ y ∈ s2) →
      dedupSeen s1 l = dedupSeen s2 l := by
  induction l with
  | nil => intro s1 s2 _; rfl
  | cons x xs ih =>
    intro s1 s2 h
    by_cases hx : x ∈ s1
    · rw [dedupSeen, dedupSeen, if_pos hx, if_pos ((h x).mp hx)]
      exact ih s1 s2 h
    · rw [dedupSeen, dedupSeen, if_neg hx, if_neg (fun hc => hx ((h x).mpr hc))]
      refine congrArg (x :: ·) (ih _ _ ?_)
      intro y; simp [h y]

theorem foldl_insertUnique (l : List String) :
    ∀ acc : List String, l.foldl insertUnique acc = acc ++ dedupSeen acc l := by
  induction l with
  | nil => intro acc; simp [dedupSeen]
  | cons x xs ih =>
    intro acc
    by_cases hx : x ∈ acc
    · rw [List.foldl_cons, insertUnique, if_pos hx, dedupSeen, if_pos hx]
      exact ih acc
    · rw [List.foldl_cons, insertUnique, if_neg hx, dedupSeen, if_neg hx, ih]
      rw [dedupSeen_congr xs (acc ++ [x]) (x :: acc) (by intro y; simp; tauto)]
      simp

theorem dedupSeen_append (l1 : List String) :
    ∀ (l2 seen : List String),
      dedupSeen seen (l1 ++ l2) =
        dedupSeen seen l1 ++ dedupSeen (l1 ++ seen) l2 := by
  induction l1 with
  | nil => intro l2 seen; simp [dedupSeen]
  | cons x xs ih =>
    intro l2 seen
    by_cases hx : x ∈ seen
    · rw [List.cons_append, dedupSeen, if_pos hx, dedupSeen, if_pos hx, ih]
      refine congrArg (dedupSeen seen xs ++ ·) ?_
      refine dedupSeen_congr l2 _ _ ?_
      intro y
      by_cases hyx : y = x
      · subst hyx; simp [hx]
      · simp [hyx]
    · rw [List.cons_append, dedupSeen, if_neg hx, dedupSeen, if_neg hx, ih]
      simp only [List.cons_append]
      refine congrArg (fun z => x :: (dedupSeen (x :: seen) xs ++ z)) ?_
      exact dedupSeen_congr l2 _ _ (by intro y; simp; tauto)

theorem nodup_dedupSeen (l : List String) :
    ∀ seen : List String, (dedupSeen seen l).Nodup := by
  induction l with
  | nil => intro seen; simp [dedupSeen]
  | cons x xs ih =>
    intro seen
    by_cases hx : x ∈ seen
    · rw [dedupSeen, if_pos hx]; exact ih seen
    · rw [dedupSeen, if_neg hx]
      refine List.nodup_cons.mpr ⟨?_, ih (x :: seen)⟩
      intro hc
      exact ((mem_dedupSeen xs (x :: seen) x).mp hc).2 (List.mem_cons_self x seen)

/-- The raw concatenation of the permission lists of the roles found in
the table, in role order. -/
theorem expandRoles_foldl (roles : List String) :
    ∀ (table : List (String × List String)) (acc : List String),
      roles.foldl (fun acc role =>
        match lookupRole table role with
        | some ps => ps.foldl insertUnique acc
        | none => acc) acc =
      acc ++ dedupSeen acc
        (roles.flatMap (fun r => (lookupRole table r).getD [])) := by
  induction roles with
  | nil => intro table acc; simp [dedupSeen]
  | cons r rs ih =>
    intro table acc
    rw [List.foldl_cons, List.flatMap_cons]
    cases hr : lookupRole table r with
    | none =>
      simp only [Option.getD_none, List.nil_append]
      exact ih table acc
    | some ps =>
      simp only [Option.getD_some]
      rw [foldl_insertUnique, ih table, dedupSeen_append]
      rw [dedupSeen_congr _ (acc ++ dedupSeen acc ps) (ps ++ acc) ?_]
      · simp
      · intro y
        simp only [List.mem_append, mem_dedupSeen]
        tauto

theorem expandRolesToPermissions_eq (roles : List String)
    (table : List (String × List String)) :
    expandRolesToPermissions roles table =
      dedupKeepFirst (roles.flatMap (fun r => (lookupRole table r).getD [])) := by
  rw [expandRolesToPermissions, expandRoles_foldl, dedupKeepFirst]
  simp

theorem mergePermissions_eq (roles explicitPermissions : List String)
    (table : List (String × List String)) :
    mergePermissions roles explicitPermissions table =
      dedupKeepFirst
        (expandRolesToPermissions roles table ++ explicitPermissions) := by
  rw [mergePermissions, foldl_insertUnique, dedupKeepFirst]
  simp

/-- C6: `mergePermissions` returns the role-expansion first with the
explicit permissions appended and duplicates dropped keeping the first
occurrence; role names absent from the table contribute nothing; the
result never contains duplicates; and the concrete example
`mergePermissions(["user"], ["x:y"], {user: ["a:b", "a:b"]})` yields
exactly `["a:b", "x:y"]`. -/
theorem c6_mergePermissions_spec :
    (∀ (roles explicitPermissions : List String)
        (table : List (String × List String)),
      mergePermissions roles explicitPermissions table =
        dedupKeepFirst
          (expandRolesToPermissions roles table ++ explicitPermissions)) ∧
    (∀ (r : String) (roles explicitPermissions : List String)
        (table : List (String × List String)),
      lookupRole table r = none →
      mergePermissions (r :: roles) explicitPermissions table =
        mergePermissions roles explicitPermissions table) ∧
    (∀ (roles explicitPermissions : List String)
        (table : List (String × List String)),
      (mergePermissions roles explicitPermissions table).Nodup) ∧
    mergePermissions ["user"] ["x:y"] [("user", ["a:b", "a:b"])] =
      ["a:b", "x:y"] := by
  refine ⟨?_, ?_, ?_, by decide⟩
  · exact mergePermissions_eq
  · intro r roles explicitPermissions table h
    rw [mergePermissions, mergePermissions, expandRolesToPermissions,
      expandRolesToPermissions, List.foldl_cons, h]
  · intro roles explicitPermissions table
    rw [mergePermissions, foldl_insertUnique]
    simpa using nodup_dedupSeen _ []

/-- C6 witness: the unknown-role conjunct applied at a concrete input. -/
theorem c6_mergePermissions_spec_witness :
    lookupRole [("user", ["a:b"])] "ghost" = none ∧
    mergePermissions ["ghost", "user"] ["x:y"] [("user", ["a:b"])] =
      mergePermissions ["user"] ["x:y"] [("user", ["a:b"])] :=
  ⟨by decide, c6_mergePermissions_spec.2.1 "ghost" ["user"] ["x:y"]
    [("user", ["a:b"])] (by decide)⟩

/-- C7: `matchPermission(capability, pattern)` is true exactly when the
pattern equals the capability, or is the global wildcard `*`, or ends
with `:*` and the capability starts with the pattern minus its trailing
`*`; with the three concrete examples from the specification. -/
theorem c7_matchPermission_iff :
    (∀ permission pattern : List Char,
      matchPermission permission pattern = true ↔
        (pattern = permission ∨ pattern = ['*'] ∨
          ([':', '*'] <:+ pattern ∧ pattern.dropLast <+: permission))) ∧
    matchPermission "posts:read".toList "posts:*".toList = true ∧
    matchPermission "users:read".toList "posts:*".toList = false ∧
    (∀ x : List Char, matchPermission x ['*'] = true) := by
  refine ⟨?_, by decide, by decide, ?_⟩
  · intro permission pattern
    unfold matchPermission
    by_cases h1 : pattern = permission
    · simp [h1]
    by_cases h2 : pattern = ['*']
    · simp [h1, h2]
    rw [if_neg h1, if_neg h2]
    by_cases h3 : [':', '*'] <:+ pattern
    · obtain ⟨q, hq⟩ := h3
      have hq2 : pattern = (q ++ [':']) ++ ['*'] := by
        rw [← hq]; simp
      have hdrop : pattern.dropLast = q ++ [':'] := by
        rw [hq2, List.dropLast_concat]
      have hdrop2 : pattern.dropLast.dropLast = q := by
        rw [hdrop, List.dropLast_concat]
      have hsuf : [':', '*'].isSuffixOf pattern = true := by
        rw [List.isSuffixOf_iff_suffix]
        exact ⟨q, hq⟩
      rw [if_pos hsuf, hdrop2, ← hdrop]
      simp only [List.isPrefixOf_iff_prefix, h1, h2, false_or]
      constructor
      · intro hp; exact ⟨⟨q, hq⟩, hp⟩
      · intro hp; exact hp.2
    · have hsuf : ¬ ([':', '*'].isSuffixOf pattern = true) := by
        rw [List.isSuffixOf_iff_suffix]; exact h3
      rw [if_neg hsuf]
      simp [h1, h2, h3]
  · intro x
    unfold matchPermission
    by_cases h : ['*'] = x
    · simp [h]
    · rw [if_neg h]; simp

/-- Two string appends differ when the left parts differ at an index
present in both. -/
theorem string_append_ne (a b s t : String) (i : Nat)
    (hia : i < a.data.length) (hib : i < b.data.length)
    (h : a.data[i]? ≠ b.data[i]?) : a ++ s ≠ b ++ t := by
  intro he
  apply h
  have hd : (a ++ s).data = (b ++ t).data := by rw [he]
  rw [String.data_append, String.data_append] at hd
  calc a.data[i]? = (a.data ++ s.data)[i]? :=
        (List.getElem?_append_left hia).symm
    _ = (b.data ++ t.data)[i]? := by rw [hd]
    _ = b.data[i]? := List.getElem?_append_left hib

/-- A plain string differs from an append when their underlying
character data differ at an index present in both. -/
theorem string_ne_append (a b t : String) (i : Nat)
    (hia : i < a.data.length) (hib : i < b.data.length)
    (h : a.data[i]? ≠ b.data[i]?) : a ≠ b ++ t := by
  intro he
  exact string_append_ne a b "" t i hia hib h (by rw [String.append_empty, he])

/-- C4 counterexample: on a claims record that is simultaneously expired
and not yet valid, `validateClaims` reports the expiry failure, while
the order stated by the specification (not-yet-valid first) would report
the not-before failure. -/
theorem c4_check_order_cex :
    validateClaims { sub := "u", exp := 0, iat := 0, nbf := some 100 } {} 50 =
      some "Token has expired" ∧
    validateClaimsSpecOrder
        { sub := "u", exp := 0, iat := 0, nbf := some 100 } {} 50 =
      some "Token is not yet valid" ∧
    ("Token has expired" : String) ≠ "Token is not yet valid" :=
  ⟨by decide, by decide, by decide⟩

/-- C4 amended: `validateClaims` evaluates its checks in exactly this
order - expired first (when the `validateExpiry` option holds, default
true), then not-yet-valid, then the minimum-issued-at floor when
supplied, then required-audience membership, then required-issuer
equality - returning the message of the first failing check with no
later check evaluated, and the five messages are pairwise distinct. -/
theorem c4_validateClaims_fail_fast :
    (∀ (c : Claims) (o : ValidationOptions) (now : Int),
      validateClaims c o now = firstFailing (checkList c o now)) ∧
    (∀ (c : Claims) (o : ValidationOptions) (now : Int),
      ((checkList c o now).map Prod.snd).Pairwise (fun a b => a ≠ b)) := by
  constructor
  · intro c o now
    rfl
  · intro c o now
    simp only [checkList, List.map_cons, List.map_nil, List.pairwise_cons,
      List.mem_cons, List.mem_singleton, List.not_mem_nil]
    refine ⟨?_, ?_, ?_, ?_, ?_⟩
    · rintro m (rfl | rfl | rfl | rfl | hF)
      · decide
      · decide
      · exact string_ne_append _ _ _ 6 (by decide) (by decide) (by decide)
      · exact string_ne_append _ _ _ 6 (by decide) (by decide) (by decide)
      · exact hF.elim
    · rintro m (rfl | rfl | rfl | hF)
      · decide
      · exact string_ne_append _ _ _ 6 (by decide) (by decide) (by decide)
      · exact string_ne_append _ _ _ 8 (by decide) (by decide) (by decide)
      · exact hF.elim
    · rintro m (rfl | rfl | hF)
      · exact string_ne_append _ _ _ 6 (by decide) (by decide) (by decide)
      · exact string_ne_append _ _ _ 11 (by decide) (by decide) (by decide)
      · exact hF.elim
    · rintro m (rfl | hF)
      · exact string_append_ne _ _ _ _ 6 (by decide) (by decide) (by decide)
      · exact hF.elim
    · simp

/-- C5 counterexample: with no roles set, `build()` passes explicitly
supplied duplicate permissions through undeduplicated, so the issued
permissions list is not always the deduplicated role-expansion-plus-
explicit union. -/
theorem c5_build_dedup_cex :
    build { sub := some "u", exp := some 100, iat := 0,
            perms := some ["a:b", "a:b"] } [] =
      .ok { sub := "u", exp := 100, iat := 0, perms := some ["a:b", "a:b"] } ∧
    some ["a:b", "a:b"] ≠
      some (dedupKeepFirst
        (expandRolesToPermissions [] [] ++ ["a:b", "a:b"])) :=
  ⟨by decide, by decide⟩

/-- C5 amended: the permissions list issued by `build()` equals the
deduplicated role-expansion followed by the explicit permissions
(duplicates dropped keeping the first occurrence) exactly when `roles`
is present and non-empty; when `roles` is absent or empty the explicit
permissions are passed through as supplied, including duplicates. -/
theorem c5_build_perms_amended :
    ∀ (b : BuilderClaims) (table : List (String × List String)) (r : Claims),
      build b table = .ok r →
      (∀ rs, b.roles = some rs → rs ≠ [] →
        r.perms = some (dedupKeepFirst
          (expandRolesToPermissions rs table ++ b.perms.getD []))) ∧
      ((b.roles = none ∨ b.roles = some []) → r.perms = b.perms) := by
  intro b table r hok
  have hperms : r.perms = buildResolvedPerms b table := by
    rw [build] at hok
    by_cases h1 : truthyStr b.sub = true
    · by_cases h2 : truthyInt b.exp = true
      · rw [if_neg (by simp [h1]), if_neg (by simp [h2])] at hok
        cases hok
        rfl
      · rw [if_neg (by simp [h1])] at hok
        simp only [Bool.not_eq_true] at h2
        rw [h2] at hok
        cases hok
    · simp only [Bool.not_eq_true] at h1
      rw [h1] at hok
      cases hok
  constructor
  · intro rs hrs hne
    have hlen : 0 < rs.length := List.length_pos.mpr hne
    rw [hperms, buildResolvedPerms, hrs]
    show (if 0 < rs.length then
        some (mergePermissions rs (b.perms.getD []) table)
      else b.perms) = _
    rw [if_pos hlen, mergePermissions_eq]
  · rintro (h | h)
    · rw [hperms, buildResolvedPerms, h]
    · rw [hperms, buildResolvedPerms, h]
      rfl

/-- C5 witness: the amended theorem applied to a builder with one role
and one explicit permission. -/
theorem c5_build_perms_amended_witness :
    build { sub := some "u", exp := some 100, iat := 0,
            roles := some ["user"], perms := some ["x:y"] }
        [("user", ["a:b", "a:b"])] =
      .ok { sub := "u", exp := 100, iat := 0, roles := some ["user"],
            perms := some ["a:b", "x:y"] } ∧
    (some ["a:b", "x:y"] : Option (List String)) =
      some (dedupKeepFirst
        (expandRolesToPermissions ["user"] [("user", ["a:b", "a:b"])] ++
          ["x:y"])) :=
  ⟨by decide,
    (c5_build_perms_amended
      { sub := some "u", exp := some 100, iat := 0,
        roles := some ["user"], perms := some ["x:y"] }
      [("user", ["a:b", "a:b"])]
      { sub := "u", exp := 100, iat := 0, roles := some ["user"],
        perms := some ["a:b", "x:y"] }
      (by decide)).1 ["user"] rfl (by decide)⟩

/-! ### Helper lemmas: association lists for the revocation store -/

theorem lookup_assocSet (m : List (String × Int)) (k : String) (v : Int) :
    (assocSet m k v).lookup k = some v := by
  induction m with
  | nil => simp [assocSet]
  | cons e rest ih =>
    obtain ⟨k', v'⟩ := e
    by_cases h : k' = k
    · rw [assocSet, if_pos h]
      simp
    · rw [assocSet, if_neg h]
      have hbeq : (k == k') = false := by
        rw [beq_eq_false_iff_ne]
        exact fun hc => h hc.symm
      simp only [List.lookup_cons, hbeq]
      exact ih

theorem mem_keys_assocSet (m : List (String × Int)) (k : String) (v : Int) :
    ∀ x : String, x ∈ (assocSet m k v).map Prod.fst →
      x ∈ m.map Prod.fst ∨ x = k := by
  induction m with
  | nil =>
    intro x hx
    simp [assocSet] at hx
    exact Or.inr hx
  | cons e rest ih =>
    intro x hx
    obtain ⟨k', v'⟩ := e
    by_cases hk : k' = k
    · rw [assocSet, if_pos hk] at hx
      simp only [List.map_cons, List.mem_cons] at hx ⊢
      rcases hx with h1 | h1
      · exact Or.inr h1
      · exact Or.inl (Or.inr h1)
    · rw [assocSet, if_neg hk] at hx
      simp only [List.map_cons, List.mem_cons] at hx ⊢
      rcases hx with h1 | h1
      · exact Or.inl (Or.inl h1)
      · rcases ih x h1 with h2 | h2
        · exact Or.inl (Or.inr h2)
        · exact Or.inr h2

theorem keys_nodup_assocSet (m : List (String × Int)) (k : String) (v : Int)
    (h : (m.map Prod.fst).Nodup) :
    ((assocSet m k v).map Prod.fst).Nodup := by
  induction m with
  | nil => simp [assocSet]
  | cons e rest ih =>
    obtain ⟨k', v'⟩ := e
    simp only [List.map_cons, List.nodup_cons] at h
    by_cases hk : k' = k
    · rw [assocSet, if_pos hk]
      subst hk
      simp only [List.map_cons, List.nodup_cons]
      exact h
    · rw [assocSet, if_neg hk]
      simp only [List.map_cons, List.nodup_cons]
      refine ⟨?_, ih h.2⟩
      intro hc
      rcases mem_keys_assocSet rest k v k' hc with h1 | h1
      · exact h.1 h1
      · exact hk h1

theorem lookup_eq_none_of_not_mem_keys (m : List (String × Int)) (k : String)
    (h : k ∉ m.map Prod.fst) : m.lookup k = none := by
  induction m with
  | nil => rfl
  | cons e rest ih =>
    obtain ⟨k', v'⟩ := e
    simp only [List.map_cons, List.mem_cons] at h
    push_neg at h
    have hbeq : (k == k') = false := by
      rw [beq_eq_false_iff_ne]
      exact h.1
    simp only [List.lookup_cons, hbeq]
    exact ih h.2

theorem lookup_filter_none (m : List (String × Int)) (p : String × Int → Bool)
    (k : String) (h : m.lookup k = none) : (m.filter p).lookup k = none := by
  induction m with
  | nil => rfl
  | cons e rest ih =>
    obtain ⟨k', v'⟩ := e
    by_cases hk : k = k'
    · subst hk
      simp at h
    · have hbeq : (k == k') = false := by
        rw [beq_eq_false_iff_ne]
        exact hk
      simp only [List.lookup_cons, hbeq] at h
      by_cases hp : p (k', v') = true
      · rw [List.filter_cons_of_pos hp]
        simp only [List.lookup_cons, hbeq]
        exact ih h
      · rw [List.filter_cons_of_neg (by simp [hp])]
        exact ih h

theorem lookup_filter_of_nodup (m : List (String × Int))
    (p : String × Int → Bool) (k : String) (v : Int)
    (hnd : (m.map Prod.fst).Nodup) (h : m.lookup k = some v) :
    (m.filter p).lookup k = if p (k, v) then some v else none := by
  induction m with
  | nil => cases h
  | cons e rest ih =>
    obtain ⟨k', v'⟩ := e
    simp only [List.map_cons, List.nodup_cons] at hnd
    by_cases hk : k = k'
    · subst hk
      simp only [List.lookup_cons_self] at h
      injection h with hv
      subst hv
      by_cases hp : p (k, v') = true
      · rw [List.filter_cons_of_pos hp, if_pos hp]
        simp
      · rw [List.filter_cons_of_neg (by simp [hp]), if_neg (by simp [hp])]
        exact lookup_filter_none rest p k
          (lookup_eq_none_of_not_mem_keys rest k hnd.1)
    · have hbeq : (k == k') = false := by
        rw [beq_eq_false_iff_ne]
        exact hk
      simp only [List.lookup_cons, hbeq] at h
      by_cases hp : p (k', v') = true
      · rw [List.filter_cons_of_pos hp]
        simp only [List.lookup_cons, hbeq]
        exact ih hnd.2 h
      · rw [List.filter_cons_of_neg (by simp [hp])]
        exact ih hnd.2 h

/-- C10: `isRevoked` reports exactly presence in the revoked-tokens map,
ignoring the stored `expiresAt`: a token id revoked with an already-past
expiry is still reported revoked, and only a subsequent `cleanup()`
removes the entry (while an unexpired entry survives `cleanup()`). -/
theorem c10_isRevoked_presence :
    ∀ (st : RevocationState) (jti : String) (expiresAt now : Int),
      (st.revokedTokens.map Prod.fst).Nodup →
      ((storeIsRevoked st jti = true ↔
        (st.revokedTokens.lookup jti).isSome = true) ∧
       storeIsRevoked (storeRevoke st jti expiresAt) jti = true ∧
       (expiresAt < now →
        storeIsRevoked
          (storeCleanup (storeRevoke st jti expiresAt) now) jti = false) ∧
       (¬ expiresAt < now →
        storeIsRevoked
          (storeCleanup (storeRevoke st jti expiresAt) now) jti = true)) := by
  intro st jti expiresAt now hnd
  have hlk : ((storeRevoke st jti expiresAt).revokedTokens).lookup jti =
      some expiresAt := lookup_assocSet st.revokedTokens jti expiresAt
  have hnd2 : (((storeRevoke st jti expiresAt).revokedTokens).map
      Prod.fst).Nodup := keys_nodup_assocSet st.revokedTokens jti expiresAt hnd
  have hclean : ((storeCleanup (storeRevoke st jti expiresAt)
        now).revokedTokens).lookup jti =
      if !(expiresAt < now) then some expiresAt else none := by
    rw [storeCleanup]
    exact lookup_filter_of_nodup _ _ jti expiresAt hnd2 hlk
  refine ⟨Iff.rfl, ?_, ?_, ?_⟩
  · rw [storeIsRevoked, hlk]
    rfl
  · intro hlt
    rw [storeIsRevoked, hclean, if_neg (by simp [hlt])]
    rfl
  · intro hge
    rw [storeIsRevoked, hclean, if_pos (by simp [hge])]
    rfl

/-- C10 witness: a token revoked with an expiry already in the past is
still revoked before cleanup and gone after cleanup. -/
theorem c10_isRevoked_presence_witness :
    storeIsRevoked (storeRevoke {} "t1" 5) "t1" = true ∧
    storeIsRevoked (storeCleanup (storeRevoke {} "t1" 5) 10) "t1" = false :=
  ⟨(c10_isRevoked_presence {} "t1" 5 10 (by decide)).2.1,
   (c10_isRevoked_presence {} "t1" 5 10 (by decide)).2.2.1 (by decide)⟩

/-! ### Helper lemmas: the validateToken state machine -/

theorem revocationPhase_spec (st : AuthState) (token : String) (c : Claims)
    (pre : List GateEvent) :
    revocationPhase st token c pre =
      ⟨.ok c, pre ++ [.revocationChecked, .accepted], st⟩ ∨
    ((revocationPhase st token c pre).result = .error .tokenRevoked ∧
     (revocationPhase st token c pre).events = pre ++ [.rejected]) := by
  unfold revocationPhase
  by_cases h1 : (truthyStr c.jti && storeIsRevoked st.store (c.jti.getD "")) = true
  · rw [if_pos h1]
    exact Or.inr ⟨rfl, rfl⟩
  · rw [if_neg h1]
    by_cases h2 : storeIsUserRevoked st.store c.sub = true
    · rw [if_pos h2]
      exact Or.inr ⟨rfl, rfl⟩
    · rw [if_neg h2]
      exact Or.inl rfl

theorem validateToken_ok_events (decode : String → Option Claims)
    (st : AuthState) (token : String) (o : ValidationOptions)
    (nowSec nowMs : Int) (cl : Claims)
    (h : (validateToken decode st token o nowSec nowMs).result = .ok cl) :
    (validateToken decode st token o nowSec nowMs).events =
      [.received, .cacheHit, .revocationChecked, .accepted] ∨
    (validateToken decode st token o nowSec nowMs).events =
      [.received, .cacheMiss, .decoded, .temporalChecked,
        .revocationChecked, .accepted] := by
  unfold validateToken at h ⊢
  rcases hcache : st.cache with _ | tc
  all_goals simp only [hcache] at h ⊢
  case none =>
    rcases hdec : decode token with _ | c
    all_goals simp only [hdec] at h ⊢
    case none => cases h
    case some =>
      rcases hval : validateClaims c o nowSec with _ | msg
      all_goals simp only [hval] at h ⊢
      case some => cases h
      case none =>
        rcases revocationPhase_spec st token c
            [.received, .cacheMiss, .decoded, .temporalChecked] with hok | herr
        · rw [hok]
          exact Or.inr rfl
        · rw [herr.1] at h
          cases h
  case some =>
    rcases hget : cacheGet tc token nowMs with ⟨r, tc'⟩
    simp only [hget] at h ⊢
    rcases r with _ | c
    all_goals simp only [] at h ⊢
    case none =>
      rcases hdec : decode token with _ | c
      all_goals simp only [hdec] at h ⊢
      case none => cases h
      case some =>
        rcases hval : validateClaims c o nowSec with _ | msg
        all_goals simp only [hval] at h ⊢
        case some => cases h
        case none =>
          rcases revocationPhase_spec
              { st with cache := some (cacheSet tc' token c nowMs) } token c
              [.received, .cacheMiss, .decoded, .temporalChecked] with hok | herr
          · rw [hok]
            exact Or.inr rfl
          · rw [herr.1] at h
            cases h
    case some =>
      rcases revocationPhase_spec { st with cache := some tc' } token c
          [.received, .cacheHit] with hok | herr
      · rw [hok]
        exact Or.inl rfl
      · rw [herr.1] at h
        cases h

/-- C2: every `validateToken` call that yields claims passed the
revocation checks in that very call, whether it went through the
cache-hit or the cache-miss path; and in the concrete scenario - issue a
token with tokenId `t1`, validate once (which caches it), revoke `t1`
with a future expiry - a second validate of the same token string
returns `TokenRevokedError` instead of the cached claims, from the
cache-hit path. -/
theorem c2_revocation_always_checked :
    (∀ (decode : String → Option Claims) (st : AuthState) (token : String)
        (o : ValidationOptions) (nowSec nowMs : Int) (cl : Claims),
      (validateToken decode st token o nowSec nowMs).result = .ok cl →
      GateEvent.revocationChecked ∈
          (validateToken decode st token o nowSec nowMs).events ∧
      (GateEvent.cacheHit ∈ (validateToken decode st token o nowSec nowMs).events ∨
       GateEvent.cacheMiss ∈
          (validateToken decode st token o nowSec nowMs).events)) ∧
    ((validateToken demoDecode demoState0 "tok1" {} 10 10000).result =
        .ok demoClaims ∧
     (validateToken demoDecode
        (authRevokeToken
          (validateToken demoDecode demoState0 "tok1" {} 10 10000).state
          "t1" 2000)
        "tok1" {} 11 11000).result = .error .tokenRevoked ∧
     GateEvent.cacheHit ∈ (validateToken demoDecode
        (authRevokeToken
          (validateToken demoDecode demoState0 "tok1" {} 10 10000).state
          "t1" 2000)
        "tok1" {} 11 11000).events) := by
  constructor
  · intro decode st token o nowSec nowMs cl h
    rcases validateToken_ok_events decode st token o nowSec nowMs cl h with
      hev | hev
    · rw [hev]
      exact ⟨by decide, Or.inl (by decide)⟩
    · rw [hev]
      exact ⟨by decide, Or.inr (by decide)⟩
  · exact ⟨by decide, by decide, by decide⟩

/-- C2 witness: the universal conjunct applied to the scenario's first
call, whose result is concretely `ok demoClaims`. -/
theorem c2_revocation_always_checked_witness :
    GateEvent.revocationChecked ∈
      (validateToken demoDecode demoState0 "tok1" {} 10 10000).events ∧
    (GateEvent.cacheHit ∈
        (validateToken demoDecode demoState0 "tok1" {} 10 10000).events ∨
     GateEvent.cacheMiss ∈
        (validateToken demoDecode demoState0 "tok1" {} 10 10000).events) :=
  c2_revocation_always_checked.1 demoDecode demoState0 "tok1" {} 10 10000
    demoClaims (by decide)

/-- C3 counterexample: the scenario's second call (a cache hit) is
accepted, yet no temporal check is evaluated during that call - the
`TEMPORAL_CHECKED` gate is absent from its trace, refuting the claim
that every accepted call passes the temporal gate before the revocation
gate on the cache-hit path too. -/
theorem c3_cache_hit_skips_temporal_cex :
    (validateToken demoDecode
       (validateToken demoDecode demoState0 "tok1" {} 10 10000).state
       "tok1" {} 11 11000).result = .ok demoClaims ∧
    GateEvent.cacheHit ∈ (validateToken demoDecode
       (validateToken demoDecode demoState0 "tok1" {} 10 10000).state
       "tok1" {} 11 11000).events ∧
    GateEvent.temporalChecked ∉ (validateToken demoDecode
       (validateToken demoDecode demoState0 "tok1" {} 10 10000).state
       "tok1" {} 11 11000).events :=
  ⟨by decide, by decide, by decide⟩

/-- C3 amended: an accepted call that went through the cache-miss path
evaluates the gates in the stated order (temporal before revocation);
an accepted call that went through the cache-hit path performs only the
revocation checks in that call, the temporal checks having been
evaluated by the earlier call that populated the cache. -/
theorem c3_gate_order_amended :
    ∀ (decode : String → Option Claims) (st : AuthState) (token : String)
      (o : ValidationOptions) (nowSec nowMs : Int) (cl : Claims),
      (validateToken decode st token o nowSec nowMs).result = .ok cl →
      ((GateEvent.cacheMiss ∈
          (validateToken decode st token o nowSec nowMs).events →
        (validateToken decode st token o nowSec nowMs).events =
          [.received, .cacheMiss, .decoded, .temporalChecked,
            .revocationChecked, .accepted]) ∧
       (GateEvent.cacheHit ∈
          (validateToken decode st token o nowSec nowMs).events →
        (validateToken decode st token o nowSec nowMs).events =
          [.received, .cacheHit, .revocationChecked, .accepted])) := by
  intro decode st token o nowSec nowMs cl h
  rcases validateToken_ok_events decode st token o nowSec nowMs cl h with
    hev | hev
  · rw [hev]
    constructor
    · intro hmem
      exact absurd hmem (by decide)
    · intro _
      rfl
  · rw [hev]
    constructor
    · intro _
      rfl
    · intro hmem
      exact absurd hmem (by decide)

/-- C3 amended witness: applied to the scenario's first (cache-miss)
call, the trace is exactly the six-gate success sequence. -/
theorem c3_gate_order_amended_witness :
    (validateToken demoDecode demoState0 "tok1" {} 10 10000).events =
      [.received, .cacheMiss, .decoded, .temporalChecked,
        .revocationChecked, .accepted] :=
  (c3_gate_order_amended demoDecode demoState0 "tok1" {} 10 10000 demoClaims
    (by decide)).1 (by decide)

/-! ### Helper lemmas: pre-authentication encoding -/

theorem foldl_append_flatten (l : List (List Nat)) :
    ∀ init : List Nat,
      l.foldl (fun res arr => res ++ arr) init = init ++ l.flatten := by
  induction l with
  | nil => intro init; simp
  | cons a rest ih =>
    intro init
    rw [List.foldl_cons, ih, List.flatten_cons, List.append_assoc]

theorem foldl_pairs_flatMap (pieces : List (List Nat)) :
    ∀ acc : List (List Nat),
      pieces.foldl (fun acc p => acc ++ [le64 p.length, p]) acc =
        acc ++ pieces.flatMap (fun p => [le64 p.length, p]) := by
  induction pieces with
  | nil => intro acc; simp
  | cons a rest ih =>
    intro acc
    rw [List.foldl_cons, ih, List.flatMap_cons, List.append_assoc]

theorem flatten_flatMap_pairs (pieces : List (List Nat)) :
    (pieces.flatMap (fun p => [le64 p.length, p])).flatten =
      pieces.flatMap (fun p => le64 p.length ++ p) := by
  induction pieces with
  | nil => rfl
  | cons a rest ih =>
    rw [List.flatMap_cons, List.flatMap_cons, List.flatten_append]
    rw [ih]
    simp

theorem preAuthEncode_flatMap (pieces : List (List Nat)) :
    preAuthEncode pieces =
      le64 pieces.length ++ pieces.flatMap (fun p => le64 p.length ++ p) := by
  rw [preAuthEncode]
  rw [foldl_append_flatten, List.flatten_cons, foldl_pairs_flatMap]
  rw [List.nil_append, List.nil_append, flatten_flatMap_pairs]

theorem le64_eq_le64Spec (n : Nat) (h : n < 2 ^ 64) : le64 n = le64Spec n := by
  rw [le64, le64Spec]
  have hm : n % 18446744073709551616 = n := Nat.mod_eq_of_lt (by exact h)
  rw [hm]
  have hr : List.range 8 = [0, 1, 2, 3, 4, 5, 6, 7] := by decide
  rw [hr]
  simp only [List.map_cons, List.map_nil]
  norm_num

theorem flatMap_congr_mem (pieces : List (List Nat))
    (f g : List Nat → List Nat) (h : ∀ p ∈ pieces, f p = g p) :
    pieces.flatMap f = pieces.flatMap g := by
  induction pieces with
  | nil => rfl
  | cons a rest ih =>
    rw [List.flatMap_cons, List.flatMap_cons,
      h a (List.mem_cons_self a rest),
      ih (fun p hp => h p (List.mem_cons_of_mem a hp))]

/-- C8: `preAuthEncode` produces exactly the 8-byte little-endian count
followed, for each element in order, by its 8-byte little-endian length
and its raw bytes; `le64` always yields 8 bytes and is bit-exact
(value-recoverable) on 64-bit values. -/
theorem c8_preAuthEncode_canonical :
    (∀ pieces : List (List Nat),
      pieces.length < 2 ^ 64 → (∀ p ∈ pieces, p.length < 2 ^ 64) →
      preAuthEncode pieces =
        le64Spec pieces.length ++
          pieces.flatMap (fun p => le64Spec p.length ++ p)) ∧
    (∀ n : Nat, (le64 n).length = 8) ∧
    (∀ n : Nat, n < 2 ^ 64 → fromLE (le64 n) = n) := by
  refine ⟨?_, ?_, ?_⟩
  · intro pieces hc hp
    rw [preAuthEncode_flatMap, le64_eq_le64Spec pieces.length hc]
    refine congrArg (le64Spec pieces.length ++ ·) ?_
    refine flatMap_congr_mem pieces _ _ ?_
    intro p hmem
    rw [le64_eq_le64Spec p.length (hp p hmem)]
  · intro n
    rfl
  · intro n h
    have hm : n % 18446744073709551616 = n := Nat.mod_eq_of_lt (by exact h)
    simp only [le64, hm, fromLE]
    omega

/-- C8 witness: the canonical-encoding conjunct applied to a concrete
two-element piece list. -/
theorem c8_preAuthEncode_canonical_witness :
    preAuthEncode [[1, 2], [3]] =
      le64Spec 2 ++ (le64Spec 2 ++ [1, 2] ++ (le64Spec 1 ++ [3])) :=
  (c8_preAuthEncode_canonical.1 [[1, 2], [3]] (by decide)
    (by decide)).trans (by decide)

/-! ### Helper lemmas: base64url codec -/

theorem b64Value_b64Code (n : Nat) (h : n < 64) :
    b64Value (b64Code n) = some n := by
  rcases Nat.lt_or_ge n 26 with h1 | h1
  · rw [b64Code, if_pos h1, b64Value,
      if_pos (show 65 ≤ 65 + n ∧ 65 + n ≤ 90 by omega)]
    exact congrArg some (by omega)
  rcases Nat.lt_or_ge n 52 with h2 | h2
  · rw [b64Code, if_neg (show ¬ n < 26 by omega), if_pos h2, b64Value,
      if_neg (show ¬ (65 ≤ 97 + (n - 26) ∧ 97 + (n - 26) ≤ 90) by omega),
      if_pos (show 97 ≤ 97 + (n - 26) ∧ 97 + (n - 26) ≤ 122 by omega)]
    exact congrArg some (by omega)
  rcases Nat.lt_or_ge n 62 with h3 | h3
  · rw [b64Code, if_neg (show ¬ n < 26 by omega),
      if_neg (show ¬ n < 52 by omega), if_pos h3, b64Value,
      if_neg (show ¬ (65 ≤ 48 + (n - 52) ∧ 48 + (n - 52) ≤ 90) by omega),
      if_neg (show ¬ (97 ≤ 48 + (n - 52) ∧ 48 + (n - 52) ≤ 122) by omega),
      if_pos (show 48 ≤ 48 + (n - 52) ∧ 48 + (n - 52) ≤ 57 by omega)]
    exact congrArg some (by omega)
  rcases Nat.lt_or_ge n 63 with h4 | h4
  · rw [b64Code, if_neg (show ¬ n < 26 by omega),
      if_neg (show ¬ n < 52 by omega), if_neg (show ¬ n < 62 by omega),
      if_pos (show n = 62 by omega), b64Value,
      if_neg (show ¬ (65 ≤ 45 ∧ 45 ≤ 90) by omega),
      if_neg (show ¬ (97 ≤ 45 ∧ 45 ≤ 122) by omega),
      if_neg (show ¬ (48 ≤ 45 ∧ 45 ≤ 57) by omega),
      if_pos (show (45 : Nat) = 45 from rfl)]
    exact congrArg some (by omega)
  · rw [b64Code, if_neg (show ¬ n < 26 by omega),
      if_neg (show ¬ n < 52 by omega), if_neg (show ¬ n < 62 by omega),
      if_neg (show ¬ n = 62 by omega), b64Value,
      if_neg (show ¬ (65 ≤ 95 ∧ 95 ≤ 90) by omega),
      if_neg (show ¬ (97 ≤ 95 ∧ 95 ≤ 122) by omega),
      if_neg (show ¬ (48 ≤ 95 ∧ 95 ≤ 57) by omega),
      if_neg (show ¬ (95 : Nat) = 45 by omega),
      if_pos (show (95 : Nat) = 95 from rfl)]
    exact congrArg some (by omega)

theorem b64Code_ne_dot (n : Nat) : b64Code n ≠ 46 := by
  unfold b64Code
  split_ifs <;> omega

theorem dot_not_mem_encode (bs : List Nat) : ¬ 46 ∈ base64urlEncode bs := by
  induction bs using base64urlEncode.induct with
  | case1 => simp [base64urlEncode]
  | case2 b1 =>
    intro hmem
    simp only [base64urlEncode, List.mem_cons, List.not_mem_nil, or_false] at hmem
    rcases hmem with h | h <;> exact b64Code_ne_dot _ h.symm
  | case3 b1 b2 =>
    intro hmem
    simp only [base64urlEncode, List.mem_cons, List.not_mem_nil, or_false] at hmem
    rcases hmem with h | h | h <;> exact b64Code_ne_dot _ h.symm
  | case4 b1 b2 b3 rest ih =>
    intro hmem
    simp only [base64urlEncode, List.mem_cons] at hmem
    rcases hmem with h | h | h | h | h
    · exact b64Code_ne_dot _ h.symm
    · exact b64Code_ne_dot _ h.symm
    · exact b64Code_ne_dot _ h.symm
    · exact b64Code_ne_dot _ h.symm
    · exact ih h

theorem base64url_roundtrip (bs : List Nat) (h : ∀ b ∈ bs, b < 256) :
    base64urlDecode (base64urlEncode bs) = some bs := by
  induction bs using base64urlEncode.induct with
  | case1 => rfl
  | case2 b1 =>
    have hb1 : b1 < 256 := h b1 (by simp)
    simp only [base64urlEncode, base64urlDecode]
    rw [b64Value_b64Code (b1 / 4) (by omega),
      b64Value_b64Code (b1 % 4 * 16) (by omega)]
    simp only [Option.some.injEq, List.cons.injEq, and_true]
    omega
  | case3 b1 b2 =>
    have hb1 : b1 < 256 := h b1 (by simp)
    have hb2 : b2 < 256 := h b2 (by simp)
    simp only [base64urlEncode, base64urlDecode]
    rw [b64Value_b64Code (b1 / 4) (by omega),
      b64Value_b64Code (b1 % 4 * 16 + b2 / 16) (by omega),
      b64Value_b64Code (b2 % 16 * 4) (by omega)]
    simp only [Option.some.injEq, List.cons.injEq, and_true]
    constructor <;> omega
  | case4 b1 b2 b3 rest ih =>
    have hb1 : b1 < 256 := h b1 (by simp)
    have hb2 : b2 < 256 := h b2 (by simp)
    have hb3 : b3 < 256 := h b3 (by simp)
    have hrest : ∀ b ∈ rest, b < 256 := fun b hb =>
      h b (by simp [List.mem_cons, hb])
    simp only [base64urlEncode, base64urlDecode]
    rw [b64Value_b64Code (b1 / 4) (by omega),
      b64Value_b64Code (b1 % 4 * 16 + b2 / 16) (by omega),
      b64Value_b64Code (b2 % 16 * 4 + b3 / 64) (by omega),
      b64Value_b64Code (b3 % 64) (by omega), ih hrest]
    simp only [Option.some.injEq, List.cons.injEq, and_true]
    refine ⟨by omega, by omega, by omega⟩

theorem encode_ne_nil (bs : List Nat) (h : bs ≠ []) :
    base64urlEncode bs ≠ [] := by
  match bs with
  | [] => exact absurd rfl h
  | [b1] => simp [base64urlEncode]
  | [b1, b2] => simp [base64urlEncode]
  | b1 :: b2 :: b3 :: rest => simp [base64urlEncode]

theorem splitOnDot_no_dot (s : List Nat) (h : ¬ 46 ∈ s) :
    splitOnDot s = [s] := by
  induction s with
  | nil => rfl
  | cons c rest ih =>
    simp only [List.mem_cons] at h
    push_neg at h
    rw [splitOnDot, if_neg (fun hc => h.1 hc.symm), ih h.2]

theorem splitOnDot_ne_nil (s : List Nat) : splitOnDot s ≠ [] := by
  induction s with
  | nil => simp [splitOnDot]
  | cons c rest ih =>
    rw [splitOnDot]
    by_cases hc : c = 46
    · rw [if_pos hc]
      simp
    · rw [if_neg hc]
      rcases hsp : splitOnDot rest with _ | ⟨p, ps⟩
      · simp
      · simp

theorem hdr_isPrefixOf (rest : List Nat) :
    hdrCodes.isPrefixOf (hdrCodes ++ rest) = true := by
  rw [List.isPrefixOf_iff_prefix]
  exact List.prefix_append _ _

theorem hdr_drop (rest : List Nat) : (hdrCodes ++ rest).drop 9 = rest :=
  List.drop_left' rfl

theorem createToken_no_footer {C : Type} (enc : CipherEnc)
    (jsonEnc : C → List Nat) (nonce : List Nat) (c : C) (key : List Nat)
    (hkey : key.length = 32) :
    createToken enc jsonEnc nonce c key none =
      .ok (hdrCodes ++ base64urlEncode
        (nonce ++ enc key nonce (preAuthEncode [hdrCodes, nonce, [], []])
          (jsonEnc c))) := by
  rw [createToken, encryptLocal, if_neg (by rw [hkey]; exact fun hc => hc rfl)]

/-- C1: decoding the token produced by encoding a claims record under a
32-byte key with the same key yields back exactly that record.  The
external collaborators are quantified: any claims serializer that
round-trips (as `JSON.stringify`/`JSON.parse` does on JSON-serializable
values, nested custom claims included), and any cipher whose open
operation inverts its seal operation at the computed authenticated data,
with byte-valued sealed output of message length plus 16. -/
theorem c1_token_roundtrip :
    ∀ (C : Type) (jsonEnc : C → List Nat) (jsonDec : List Nat → Option C)
      (enc : CipherEnc) (dec : CipherDec) (key nonce : List Nat) (c : C),
      key.length = 32 →
      nonce.length = 24 →
      (∀ b ∈ nonce, b < 256) →
      (∀ b ∈ enc key nonce (preAuthEncode [hdrCodes, nonce, [], []])
        (jsonEnc c), b < 256) →
      (enc key nonce (preAuthEncode [hdrCodes, nonce, [], []])
          (jsonEnc c)).length = (jsonEnc c).length + 16 →
      dec key nonce (preAuthEncode [hdrCodes, nonce, [], []])
          (enc key nonce (preAuthEncode [hdrCodes, nonce, [], []])
            (jsonEnc c)) =
        some (jsonEnc c) →
      jsonDec (jsonEnc c) = some c →
      ∀ tok, createToken enc jsonEnc nonce c key none = .ok tok →
        parseToken dec jsonDec tok key = .ok (c, none) := by
  intro C jsonEnc jsonDec enc dec key nonce c hkey hnonce hnb hsb hslen hdec
    hjson tok hok
  rw [createToken_no_footer enc jsonEnc nonce c key hkey] at hok
  injection hok with htok
  subst htok
  have hbytes : ∀ b ∈ nonce ++ enc key nonce
      (preAuthEncode [hdrCodes, nonce, [], []]) (jsonEnc c), b < 256 := by
    intro b hb
    rcases List.mem_append.mp hb with hb | hb
    · exact hnb b hb
    · exact hsb b hb
  have hne : nonce ++ enc key nonce
      (preAuthEncode [hdrCodes, nonce, [], []]) (jsonEnc c) ≠ [] := by
    intro hc
    have := congrArg List.length hc
    rw [List.length_append, hnonce] at this
    simp at this
  rw [parseToken, if_neg (not_not_intro (hdr_isPrefixOf _))]
  simp only [hdr_drop,
    splitOnDot_no_dot _ (dot_not_mem_encode _),
    List.length_cons, List.length_nil, List.headD_cons,
    List.getD_cons_succ, List.getD_nil]
  rw [if_neg (by omega)]
  rw [if_neg (encode_ne_nil _ hne)]
  rw [base64url_roundtrip _ hbytes]
  have hdecrypt : decryptLocal dec
      (nonce ++ enc key nonce (preAuthEncode [hdrCodes, nonce, [], []])
        (jsonEnc c)) key [] = .ok (jsonEnc c) := by
    rw [decryptLocal, if_neg (by rw [hkey]; exact fun hc => hc rfl),
      if_neg (by rw [List.length_append, hnonce, hslen]; omega)]
    simp only [List.take_left' hnonce, List.drop_left' hnonce]
    rw [hdec]
  show (match decryptLocal dec
      (nonce ++ enc key nonce (preAuthEncode [hdrCodes, nonce, [], []])
        (jsonEnc c)) key [] with
    | Except.error _ => Except.error ParseErr.parseFailed
    | Except.ok decrypted =>
      match jsonDec decrypted with
      | none => Except.error ParseErr.parseFailed
      | some claims => Except.ok (claims, (none : Option (List Nat)))) =
    Except.ok (c, none)
  rw [hdecrypt]
  show (match jsonDec (jsonEnc c) with
    | none => Except.error ParseErr.parseFailed
    | some claims => Except.ok (claims, (none : Option (List Nat)))) =
    Except.ok (c, none)
  rw [hjson]

/-- C1 witness: the round-trip theorem applied to the toy cipher, the
identity serializer over byte lists, a concrete one-byte claims record,
and concrete key and nonce. -/
theorem c1_token_roundtrip_witness :
    parseToken decToy (fun bs => some bs)
      (hdrCodes ++ base64urlEncode (nonceToy ++ ([5] ++ List.replicate 16 0)))
      keyToy = .ok ([5], none) := by
  refine c1_token_roundtrip (List Nat) (fun m => m) (fun bs => some bs)
    encToy decToy keyToy nonceToy [5] (by decide) (by decide) (by decide)
    (by decide) (by decide) (by decide) (by decide)
    (hdrCodes ++ base64urlEncode (nonceToy ++ ([5] ++ List.replicate 16 0)))
    (by decide)

/-- C9 counterexample: a well-formed token with a trailing dot - whose
remainder splits into two segments with the *second one empty*, hence
not into "exactly one or two non-empty segments" - is not rejected:
the empty footer segment is treated as an absent footer and the token
parses successfully (shown with the toy cipher instantiating the cipher
parameters). -/
theorem c9_empty_footer_segment_cex :
    (splitOnDot ((hdrCodes ++
        base64urlEncode (nonceToy ++ ([5] ++ List.replicate 16 0)) ++
        [46]).drop 9)).length = 2 ∧
    (splitOnDot ((hdrCodes ++
        base64urlEncode (nonceToy ++ ([5] ++ List.replicate 16 0)) ++
        [46]).drop 9)).getD 1 [] = [] ∧
    parseToken decToy (fun bs => some bs)
      (hdrCodes ++ base64urlEncode (nonceToy ++ ([5] ++ List.replicate 16 0))
        ++ [46])
      keyToy = .ok ([5], none) :=
  ⟨by decide, by decide, by decide⟩

/-- C9 amended: `parseToken` fails with `TokenInvalidError` (every
`ParseErr` constructor is raised as that one error class) when the token
lacks the `v4.local.` prefix, when the remainder splits into more than
two dot-separated segments, or when the first (payload) segment is
empty; an empty second segment is accepted and treated as an absent
footer.  When authenticated decryption fails - wrong key, tampering, or
mismatched footer all yield the same single failure of the cipher's
open operation - the failure surfaces as the one undifferentiated
`parseFailed` error, leaking nothing about the cause. -/
theorem c9_parse_errors_amended :
    (∀ (C : Type) (dec : CipherDec) (jsonDec : List Nat → Option C)
        (token key : List Nat),
      ¬ hdrCodes.isPrefixOf token = true →
      parseToken dec jsonDec token key = .error .noPrefix) ∧
    (∀ (C : Type) (dec : CipherDec) (jsonDec : List Nat → Option C)
        (token key : List Nat),
      hdrCodes.isPrefixOf token = true →
      2 < (splitOnDot (token.drop 9)).length →
      parseToken dec jsonDec token key = .error .badPartCount) ∧
    (∀ (C : Type) (dec : CipherDec) (jsonDec : List Nat → Option C)
        (token key : List Nat),
      hdrCodes.isPrefixOf token = true →
      ¬ 2 < (splitOnDot (token.drop 9)).length →
      (splitOnDot (token.drop 9)).headD [] = [] →
      parseToken dec jsonDec token key = .error .emptyPayload) ∧
    (∀ (C : Type) (dec : CipherDec) (jsonDec : List Nat → Option C)
        (token key encrypted footerBytes : List Nat),
      hdrCodes.isPrefixOf token = true →
      ¬ 2 < (splitOnDot (token.drop 9)).length →
      ¬ (splitOnDot (token.drop 9)).headD [] = [] →
      base64urlDecode ((splitOnDot (token.drop 9)).headD []) =
        some encrypted →
      (if (splitOnDot (token.drop 9)).getD 1 [] = [] then some []
        else base64urlDecode ((splitOnDot (token.drop 9)).getD 1 [])) =
        some footerBytes →
      decryptLocal dec encrypted key footerBytes = .error () →
      parseToken dec jsonDec token key = .error .parseFailed) := by
  refine ⟨?_, ?_, ?_, ?_⟩
  · intro C dec jsonDec token key h
    rw [parseToken, if_pos h]
  · intro C dec jsonDec token key h1 h2
    simp only [parseToken]
    rw [if_neg (not_not_intro h1), if_pos (Or.inr h2)]
  · intro C dec jsonDec token key h1 h2 h3
    simp only [parseToken]
    have hcount : ¬ ((splitOnDot (token.drop 9)).length < 1 ∨
        2 < (splitOnDot (token.drop 9)).length) := by
      push_neg
      exact ⟨List.length_pos.mpr (splitOnDot_ne_nil _), Nat.le_of_not_lt h2⟩
    rw [if_neg (not_not_intro h1), if_neg hcount, if_pos h3]
  · intro C dec jsonDec token key encrypted footerBytes h1 h2 h3 h4 h5 h6
    simp only [parseToken]
    have hcount : ¬ ((splitOnDot (token.drop 9)).length < 1 ∨
        2 < (splitOnDot (token.drop 9)).length) := by
      push_neg
      exact ⟨List.length_pos.mpr (splitOnDot_ne_nil _), Nat.le_of_not_lt h2⟩
    rw [if_neg (not_not_intro h1), if_neg hcount, if_neg h3, h4]
    show (match (if (splitOnDot (token.drop 9)).getD 1 [] = [] then some []
        else base64urlDecode ((splitOnDot (token.drop 9)).getD 1 [])) with
      | none => Except.error ParseErr.parseFailed
      | some footerBytes =>
        match decryptLocal dec encrypted key footerBytes with
        | Except.error _ => Except.error ParseErr.parseFailed
        | Except.ok decrypted =>
          match jsonDec decrypted with
          | none => Except.error ParseErr.parseFailed
          | some claims =>
            Except.ok (claims,
              if (splitOnDot (token.drop 9)).getD 1 [] = [] then none
              else some footerBytes)) = Except.error ParseErr.parseFailed
    rw [h5]
    show (match decryptLocal dec encrypted key footerBytes with
      | Except.error _ => Except.error ParseErr.parseFailed
      | Except.ok decrypted =>
        match jsonDec decrypted with
        | none => Except.error ParseErr.parseFailed
        | some claims =>
          Except.ok (claims,
            if (splitOnDot (token.drop 9)).getD 1 [] = [] then none
            else some footerBytes)) = Except.error ParseErr.parseFailed
    rw [h6]

/-- C9 amended witness: the no-prefix conjunct applied to a concrete
malformed token. -/
theorem c9_parse_errors_amended_witness :
    parseToken decToy (fun bs => some bs) [1, 2, 3] keyToy =
      .error .noPrefix :=
  c9_parse_errors_amended.1 (List Nat) decToy (fun bs => some bs)
    [1, 2, 3] keyToy (by decide)

end FlashAuth
